import Mathlib

/-!
Verification development for the redaction decision pipeline of the
`censor.ai` repository (`pages/api/gemini.js` and `pages/index.js`).

The pipeline is shallowly embedded: the API handler becomes a pure function
of the inbound request fields, the environment credential and the outcome of
the single external `fetch` call; `JSON.parse` / `JSON.stringify` become an
executable JSON value type with a recursive-descent reader and printer;
each fallback regular expression becomes an executable matcher with the
usual existential (backtracking) semantics.  Numbers are modelled as exact
decimal pairs (mantissa, power of ten) rather than floats; none of the
verified claims depends on float rounding.
-/

/-- JSON values, as produced by `JSON.parse`.  A number is kept as an exact
decimal `man * 10 ^ exp10` (normalised so that `exp10 < 0` only when the
value is genuinely fractional). -/
inductive Json where
  | null : Json
  | bool (b : Bool) : Json
  | num (man : Int) (exp10 : Int) : Json
  | str (s : String) : Json
  | arr (elems : List Json) : Json
  | obj (fields : List (String × Json)) : Json

/-- JavaScript truthiness of a JSON value (`null`, `false`, `0` and `""` are
falsy; every object and array is truthy). -/
def jsTruthy : Json → Bool
  | .null => false
  | .bool b => b
  | .num man _ => man ≠ 0
  | .str s => s ≠ ""
  | .arr _ => true
  | .obj _ => true

/-- Property access `v.k`: `none` models JavaScript `undefined`. -/
def jsField : Json → String → Option Json
  | .obj fs, k => (fs.find? (fun p => p.1 = k)).map (·.2)
  | _, _ => none

/-- Truthiness of a possibly-undefined value (`undefined` is falsy). -/
def truthyOpt : Option Json → Bool
  | some v => jsTruthy v
  | none => false

/-- Element access `v[0]` as used by the response unwrapping code. -/
def jsIndex0 : Json → Option Json
  | .arr (x :: _) => some x
  | .arr [] => none
  | .str s =>
    match s.toList with
    | c :: _ => some (.str (String.mk [c]))
    | [] => none
  | .obj fs => jsField (.obj fs) "0"
  | _ => none

/-- Skip JSON whitespace (space, tab, line feed, carriage return). -/
def skipWS : List Char → List Char
  | c :: rest =>
    if c = ' ' ∨ c = '\t' ∨ c = '\n' ∨ c = '\r' then skipWS rest else c :: rest
  | [] => []

def digitVal (c : Char) : Nat := c.toNat - '0'.toNat

def digitsToNat (cs : List Char) : Nat :=
  cs.foldl (fun a c => a * 10 + digitVal c) 0

/-- Normalise a fractional mantissa: strip factors of ten while the exponent
is negative, so that `exp10 < 0` only for genuinely fractional values. -/
def normNeg (man : Int) : Nat → Json
  | 0 => .num man 0
  | k + 1 => if man % 10 = 0 then normNeg (man / 10) k else .num man (-(k + 1 : Int))

/-- Build a normalised JSON number from mantissa and decimal exponent. -/
def mkNum (man exp : Int) : Json :=
  if man = 0 then .num 0 0
  else if 0 ≤ exp then .num (man * 10 ^ exp.toNat) 0
  else normNeg man (-exp).toNat

/-- Integer part of a JSON number literal: `0`, or a nonzero digit followed
by digits (a leading zero cannot be followed by further digits). -/
def parseIntPart : List Char → Option (List Char × List Char)
  | '0' :: rest => some (['0'], rest)
  | c :: rest =>
    if c.isDigit then
      let p := (c :: rest).span (·.isDigit)
      some (p.1, p.2)
    else none
  | [] => none

/-- Optional fraction part `.digits` of a JSON number literal. -/
def parseFrac : List Char → Option (List Char × List Char)
  | '.' :: r =>
    let p := r.span (·.isDigit)
    if p.1 = [] then none else some (p.1, p.2)
  | cs => some ([], cs)

/-- Optional exponent part `e[+-]digits` of a JSON number literal. -/
def parseExp : List Char → Option (Int × List Char)
  | c :: r =>
    if c = 'e' ∨ c = 'E' then
      let sp : Int × List Char :=
        match r with
        | '+' :: t => (1, t)
        | '-' :: t => (-1, t)
        | _ => (1, r)
      let p := sp.2.span (·.isDigit)
      if p.1 = [] then none else some (sp.1 * (digitsToNat p.1 : Int), p.2)
    else some (0, c :: r)
  | [] => some (0, [])

/-- JSON number literal. -/
def parseNumber (cs : List Char) : Option (Json × List Char) :=
  let sn : Bool × List Char :=
    match cs with
    | '-' :: r => (true, r)
    | _ => (false, cs)
  (parseIntPart sn.2).bind fun ip =>
  (parseFrac ip.2).bind fun fp =>
  (parseExp fp.2).map fun ep =>
  let man0 : Int := (digitsToNat (ip.1 ++ fp.1) : Int)
  let man : Int := if sn.1 then -man0 else man0
  (mkNum man (ep.1 - (fp.1.length : Int)), ep.2)

/-- One-character string escapes accepted by JSON. -/
def escChar? : Char → Option Char
  | '"' => some '"'
  | '\\' => some '\\'
  | '/' => some '/'
  | 'b' => some (Char.ofNat 8)
  | 'f' => some (Char.ofNat 12)
  | 'n' => some '\n'
  | 'r' => some '\r'
  | 't' => some '\t'
  | _ => none

def hexVal? (c : Char) : Option Nat :=
  if c.isDigit then some (digitVal c)
  else if 'a' ≤ c ∧ c ≤ 'f' then some (c.toNat - 'a'.toNat + 10)
  else if 'A' ≤ c ∧ c ≤ 'F' then some (c.toNat - 'A'.toNat + 10)
  else none

/-- Body of a JSON string literal, after the opening quote.  Raw control
characters are rejected, as by `JSON.parse`. -/
def parseStringBody (acc : List Char) : List Char → Option (String × List Char)
  | [] => none
  | '"' :: rest => some (String.mk acc.reverse, rest)
  | '\\' :: 'u' :: a :: b :: c :: d :: rest =>
    match hexVal? a, hexVal? b, hexVal? c, hexVal? d with
    | some ha, some hb, some hc, some hd =>
      parseStringBody (Char.ofNat (((ha * 16 + hb) * 16 + hc) * 16 + hd) :: acc) rest
    | _, _, _, _ => none
  | '\\' :: e :: rest =>
    match escChar? e with
    | some ec => parseStringBody (ec :: acc) rest
    | none => none
  | c :: rest =>
    if c.toNat < 32 then none else parseStringBody (c :: acc) rest

/-- Object assignment: a repeated key overwrites the earlier value, as in
JavaScript. -/
def insertField (fs : List (String × Json)) (k : String) (v : Json) :
    List (String × Json) :=
  if fs.any (fun p => p.1 = k) then
    fs.map (fun p => if p.1 = k then (k, v) else p)
  else fs ++ [(k, v)]

mutual

/-- Recursive-descent JSON value reader (fuel-indexed; the fuel supplied by
`jsonParse` is always sufficient for the input length). -/
def parseVal : Nat → List Char → Option (Json × List Char)
  | 0, _ => none
  | f + 1, cs =>
    match skipWS cs with
    | [] => none
    | '{' :: rest =>
      (match skipWS rest with
       | '}' :: r => some (.obj [], r)
       | cs2 => parseObjItems f [] cs2)
    | '[' :: rest =>
      (match skipWS rest with
       | ']' :: r => some (.arr [], r)
       | cs2 => parseArrItems f [] cs2)
    | '"' :: rest => (parseStringBody [] rest).map (fun p => (.str p.1, p.2))
    | 't' :: 'r' :: 'u' :: 'e' :: r => some (.bool true, r)
    | 'f' :: 'a' :: 'l' :: 's' :: 'e' :: r => some (.bool false, r)
    | 'n' :: 'u' :: 'l' :: 'l' :: r => some (.null, r)
    | c :: rest =>
      if c = '-' ∨ c.isDigit then parseNumber (c :: rest) else none

/-- Array elements after `[` (at least one element present). -/
def parseArrItems : Nat → List Json → List Char → Option (Json × List Char)
  | 0, _, _ => none
  | f + 1, acc, cs =>
    match parseVal f cs with
    | none => none
    | some (v, r) =>
      match skipWS r with
      | ',' :: r2 => parseArrItems f (acc ++ [v]) r2
      | ']' :: r2 => some (.arr (acc ++ [v]), r2)
      | _ => none

/-- Object members after `{` (at least one member present). -/
def parseObjItems : Nat → List (String × Json) → List Char → Option (Json × List Char)
  | 0, _, _ => none
  | f + 1, acc, cs =>
    match skipWS cs with
    | '"' :: rest =>
      (match parseStringBody [] rest with
       | none => none
       | some (k, r1) =>
         match skipWS r1 with
         | ':' :: r2 =>
           (match parseVal f r2 with
            | none => none
            | some (v, r3) =>
              let acc' := insertField acc k v
              match skipWS r3 with
              | ',' :: r4 => parseObjItems f acc' r4
              | '}' :: r4 => some (.obj acc', r4)
              | _ => none)
         | _ => none)
    | _ => none

end

/-- `JSON.parse`: parse the whole text as one JSON document (`none` models a
thrown `SyntaxError`). -/
def jsonParse (s : String) : Option Json :=
  match parseVal (4 * s.length + 8) s.toList with
  | some (v, rest) => if skipWS rest = [] then some v else none
  | none => none

/-- Escape one character for `JSON.stringify` output. -/
def escapeOut (c : Char) : List Char :=
  if c = '"' then ['\\', '"']
  else if c = '\\' then ['\\', '\\']
  else if c = '\n' then ['\\', 'n']
  else if c = '\r' then ['\\', 'r']
  else if c = '\t' then ['\\', 't']
  else [c]

/-- Decimal rendering of an exact decimal number (integer values print with
no point; fractional values print mantissa digits with an inserted point). -/
def numRender (man exp10 : Int) : String :=
  if 0 ≤ exp10 then toString (man * 10 ^ exp10.toNat)
  else
    let k := (-exp10).toNat
    let digs := (toString man.natAbs).toList
    let digs := if digs.length ≤ k then List.replicate (k + 1 - digs.length) '0' ++ digs else digs
    let ip := digs.take (digs.length - k)
    let fp := digs.drop (digs.length - k)
    (if man < 0 then "-" else "") ++ String.mk ip ++ "." ++ String.mk fp

mutual

/-- `JSON.stringify` of a JSON value. -/
def jsonStringify : Json → String
  | .null => "null"
  | .bool true => "true"
  | .bool false => "false"
  | .num man exp10 => numRender man exp10
  | .str s => "\"" ++ String.mk (s.toList.flatMap escapeOut) ++ "\""
  | .arr l => "[" ++ stringifyElems l ++ "]"
  | .obj fs => "\x7b" ++ stringifyFields fs ++ "\x7d"

def stringifyElems : List Json → String
  | [] => ""
  | [x] => jsonStringify x
  | x :: xs => jsonStringify x ++ "," ++ stringifyElems xs

def stringifyFields : List (String × Json) → String
  | [] => ""
  | [(k, v)] => "\"" ++ String.mk (k.toList.flatMap escapeOut) ++ "\":" ++ jsonStringify v
  | (k, v) :: fs =>
    "\"" ++ String.mk (k.toList.flatMap escapeOut) ++ "\":" ++ jsonStringify v ++ "," ++
      stringifyFields fs

end

mutual

/-- The JavaScript `String()` coercion of a JSON value (`Array.prototype.toString`
joins `String()`-coerced elements with commas, rendering `null` as empty). -/
def jsToString : Json → String
  | .null => "null"
  | .bool true => "true"
  | .bool false => "false"
  | .num man exp10 => numRender man exp10
  | .str s => s
  | .arr l => joinElems l
  | .obj _ => "[object Object]"

def joinElems : List Json → String
  | [] => ""
  | [x] => joinOne x
  | x :: xs => joinOne x ++ "," ++ joinElems xs

def joinOne : Json → String
  | .null => ""
  | v => jsToString v

end

/-- The greedy regex `\x7b[\s\S]*\x7d` (as used by `genText.match`): it
matches from the first `{` of the text to the last `}`, provided the former
comes strictly before the latter. -/
def braceSpan (cs : List Char) : Option (List Char) :=
  match cs.findIdx? (· = '{') with
  | none => none
  | some i =>
    match cs.reverse.findIdx? (· = '}') with
    | none => none
    | some jr =>
      let j := cs.length - 1 - jr
      if i < j then some ((cs.drop i).take (j - i + 1)) else none

/-- Lines 76–85 of `gemini.js`: try `JSON.parse` on the whole text; on a
`SyntaxError`, match the greedy `\x7b[\s\S]*\x7d` span and retry `JSON.parse`
on it (an inner failure yields `null`, i.e. `none`). -/
def parseGenText (s : String) : Option Json :=
  match jsonParse s with
  | some v => some v
  | none =>
    match braceSpan s.toList with
    | some sub => jsonParse (String.mk sub)
    | none => none

/-- The guard `!parsed || !Array.isArray(parsed.redact_indices)` (line 87),
reformulated as the accepted index list when the guard does not fire. -/
def shapeOfValue (v : Json) : Option (List Json) :=
  if jsTruthy v then
    match jsField v "redact_indices" with
    | some (.arr l) => some l
    | _ => none
  else none

def shapeCheck : Option Json → Option (List Json)
  | none => none
  | some v => shapeOfValue v

/-- End-to-end decision of the response parser on a raw classifier text:
`some l` means the parsed reply is used, `none` means the fallback engine is
triggered. -/
def codeParseDecision (s : String) : Option (List Json) :=
  shapeCheck (parseGenText s)

/-! ## The fallback heuristic regexes (lines 90–93 of `gemini.js`)

Each matcher computes, for a given start position, the list of possible
remainders after the pattern has consumed a prefix — i.e. the existential
(backtracking) semantics of the regex.  `reTest` then tries every start
position, as `RegExp.test` does for an unanchored pattern. -/

/-- Remainders of `c?` for a character class. -/
def optChar (p : Char → Bool) (cs : List Char) : List (List Char) :=
  match cs with
  | c :: rest => if p c then [cs, rest] else [cs]
  | [] => [cs]

/-- Remainders of `c+` for a character class (consume one or more). -/
def plusChar (p : Char → Bool) : List Char → List (List Char)
  | [] => []
  | c :: rest => if p c then rest :: plusChar p rest else []

/-- Remainders of `c*` for a character class. -/
def starChar (p : Char → Bool) (cs : List Char) : List (List Char) :=
  cs :: plusChar p cs

/-- Remainders of `c{k}` for a character class. -/
def repExact (p : Char → Bool) : Nat → List Char → List (List Char)
  | 0, cs => [cs]
  | _ + 1, [] => []
  | k + 1, c :: rest => if p c then repExact p k rest else []

/-- Remainders of `c{lo,hi}` for a character class. -/
def repRange (p : Char → Bool) (lo hi : Nat) (cs : List Char) : List (List Char) :=
  (List.range' lo (hi - lo + 1)).flatMap (fun k => repExact p k cs)

/-- The separator class `[ -]` of the card regex. -/
def cardSep (c : Char) : Bool := c = ' ' || c = '-'

/-- The regex whitespace class `\s` (ASCII part; Unicode spaces are not
exercised by any claim). -/
def jsWS (c : Char) : Bool :=
  c = ' ' || c = '\t' || c = '\n' || c = '\r' || c = Char.ofNat 11 || c = Char.ofNat 12

/-- One repetition `\d[ -]?` of the card pattern. -/
def cardGroup (cs : List Char) : List (List Char) :=
  match cs with
  | c :: rest => if c.isDigit then optChar cardSep rest else []
  | [] => []

/-- Remainders of `(?:\d[ -]?){k}`. -/
def cardReps : Nat → List Char → List (List Char)
  | 0, cs => [cs]
  | k + 1, cs => (cardGroup cs).flatMap (cardReps k)

/-- `(?:\d[ -]?){13,19}` matched at the start position `cs`. -/
def cardAt (cs : List Char) : Bool :=
  (List.range' 13 7).any (fun k => !(cardReps k cs).isEmpty)

/-- The separator class `[, \s]` of the coordinate regex. -/
def coordSep (c : Char) : Bool := c = ',' || c = ' ' || jsWS c

/-- `-?\d+[, \s]+-?\d+[, \s]+-?\d+` matched at the start position. -/
def coordAt (cs : List Char) : Bool :=
  let num := fun t => (optChar (· = '-') t).flatMap (plusChar Char.isDigit)
  let sep := plusChar coordSep
  !(((((num cs).flatMap sep).flatMap num).flatMap sep).flatMap num).isEmpty

def emailLocalC (c : Char) : Bool :=
  c.isAlpha || c.isDigit || c = '.' || c = '_' || c = '%' || c = '+' || c = '-'

def emailDomC (c : Char) : Bool := c.isAlpha || c.isDigit || c = '.' || c = '-'

/-- `[A-Za-z0-9._%+\-]+@[A-Za-z0-9.\-]+\.[A-Za-z]{2,}` matched at the start. -/
def emailAt (cs : List Char) : Bool :=
  let afterAt := (plusChar emailLocalC cs).flatMap (fun r =>
    match r with
    | '@' :: r' => [r']
    | _ => [])
  let afterDot := ((afterAt.flatMap (plusChar emailDomC)).flatMap (fun r =>
    match r with
    | '.' :: r' => [r']
    | _ => []))
  !((afterDot.flatMap (repExact Char.isAlpha 2)).flatMap (starChar Char.isAlpha)).isEmpty

/-- The separator class `[-.\s]` of the phone regex. -/
def phoneSep (c : Char) : Bool := c = '-' || c = '.' || jsWS c

/-- Remainders of the optional group `(?:\+?\d{1,3}[-.\s]?)?`. -/
def phoneG1 (cs : List Char) : List (List Char) :=
  cs :: (((optChar (· = '+') cs).flatMap (repRange Char.isDigit 1 3)).flatMap (optChar phoneSep))

/-- Remainders of the optional group `(?:\(?\d{3}\)?[-.\s]?)?`. -/
def phoneG2 (cs : List Char) : List (List Char) :=
  cs :: ((((optChar (· = '(') cs).flatMap (repExact Char.isDigit 3)).flatMap
    (optChar (· = ')'))).flatMap (optChar phoneSep))

/-- The mandatory tail `\d{3}[-.\s]?\d{4}` of the phone regex. -/
def phoneCore (cs : List Char) : Bool :=
  !(((repExact Char.isDigit 3 cs).flatMap (optChar phoneSep)).flatMap
    (repExact Char.isDigit 4)).isEmpty

/-- The whole phone regex matched at the start position. -/
def phoneAt (cs : List Char) : Bool :=
  (phoneG1 cs).any (fun r1 => (phoneG2 r1).any phoneCore)

/-- `RegExp.test` for an unanchored pattern: some start position matches. -/
def reTest (f : List Char → Bool) (s : String) : Bool :=
  s.toList.tails.any f

def reCardTest (s : String) : Bool := reTest cardAt s
def reCoordTest (s : String) : Bool := reTest coordAt s
def reEmailTest (s : String) : Bool := reTest emailAt s
def rePhoneTest (s : String) : Bool := reTest phoneAt s

/-! ## Token model, fallback heuristic engine, and API handler -/

/-- One OCR token (`{text, conf, bbox}`); numeric fields are carried as
integers since no verified claim depends on their arithmetic. -/
structure Token where
  text : String
  conf : Int
  bbox : Int × Int × Int × Int

/-- The inbound `items` field: either not an array (`Array.isArray` fails)
or a list of tokens. -/
inductive ItemsField where
  | notList : ItemsField
  | list (items : List Token) : ItemsField

/-- Lowercasing as done by `String.prototype.toLowerCase` on ASCII text. -/
def lowerStr (s : String) : String := String.mk (s.toList.map Char.toLower)

/-- Is the first list a prefix of the second? -/
def listPrefixOf : List Char → List Char → Bool
  | [], _ => true
  | _ :: _, [] => false
  | a :: as, b :: bs => a = b && listPrefixOf as bs

/-- Is the first list a contiguous sublist of the second? -/
def listInfixOf (needle : List Char) : List Char → Bool
  | [] => needle.isEmpty
  | c :: rest => listPrefixOf needle (c :: rest) || listInfixOf needle rest

/-- `hay.includes(needle)`: substring containment. -/
def strIncludes (hay needle : String) : Bool :=
  listInfixOf needle.toList hay.toList

/-- Disjunction of the four detector regexes (line 97 of `gemini.js`). -/
def fallbackPatterns (t : String) : Bool :=
  reCardTest t || reCoordTest t || reEmailTest t || rePhoneTest t

/-- One iteration of the inner `for (const ct of customTargets)` loop:
push the index if the target is truthy, the lowercased text contains the
lowercased target, and the index is not already present. -/
def customStep (t : String) (idx : Nat) (a : List Nat) (ct : String) : List Nat :=
  if (ct != "") && strIncludes (lowerStr t) (lowerStr ct) then
    if idx ∈ a then a else a ++ [idx]
  else a

/-- One iteration of `items.forEach((it, idx) => ...)` (lines 95–106):
`(it.text || "")` equals `it.text` for string-typed token text. -/
def fallbackStep (mode : String) (customTargets : List String)
    (acc : List Nat) (p : Nat × Token) : List Nat :=
  let idx := p.1
  let t := p.2.text
  let acc1 := if fallbackPatterns t then acc ++ [idx] else acc
  if mode = "custom" then customTargets.foldl (customStep t idx) acc1 else acc1

/-- The fallback heuristic engine: the `fallback` array after the `forEach`
over all items. -/
def fallbackIndices (items : List Token) (mode : String)
    (customTargets : List String) : List Nat :=
  (List.enumFrom 0 items).foldl (fallbackStep mode customTargets) []

/-- The fallback response body's `redact_indices` (JSON numbers). -/
def fallbackJson (items : List Token) (mode : String)
    (customTargets : List String) : List Json :=
  (fallbackIndices items mode customTargets).map (fun i => .num i 0)

/-- Outcome of the single `await fetch` + `await r.json()` step: `throws`
models a rejected promise (network failure, timeout, or a body that is not
JSON); `responds jr` models any HTTP response — success or not — whose body
parsed as the JSON value `jr` (the handler never checks `r.ok`). -/
inductive FetchOutcome where
  | throws (err : String) : FetchOutcome
  | responds (jr : Json) : FetchOutcome

/-- The five response shapes the handler can produce. -/
inductive HandlerResult where
  | methodNotAllowed : HandlerResult
  | badRequest (error : String) : HandlerResult
  | configError (error : String) : HandlerResult
  | fetchError (error detail : String) : HandlerResult
  | ok (redact_indices : List Json) (note : Option String) : HandlerResult

/-- HTTP status of each handler result. -/
def statusOf : HandlerResult → Nat
  | .methodNotAllowed => 405
  | .badRequest _ => 400
  | .configError _ => 500
  | .fetchError _ _ => 500
  | .ok _ _ => 200

/-- Lines 61–73 of `gemini.js`: unwrap the generation text from the reply
envelope, trying the known shapes in order.  `none` models a `TypeError`
thrown while unwrapping (only possible in the second branch, when `.map` is
called on a truthy non-array `jr.output`); the returned value is the raw
JavaScript value assigned to `genText`, which need not be a string. -/
def extractGenText (jr : Json) : Option Json :=
  let cands := jsField jr "candidates"
  let cand0 := cands.bind jsIndex0
  let out := jsField jr "output"
  let res := jsField jr "result"
  if jsTruthy jr && truthyOpt cands && truthyOpt cand0 &&
      truthyOpt (cand0.bind (jsField · "output")) then
    cand0.bind (jsField · "output")
  else if jsTruthy jr && truthyOpt out && truthyOpt (out.bind jsIndex0) &&
      truthyOpt ((out.bind jsIndex0).bind (jsField · "content")) then
    match out with
    | some (.arr l) =>
      some (.str (String.intercalate "\n" (l.map (fun o =>
        match jsField o "content" with
        | some c =>
          if jsTruthy c then
            match c with
            | .str s => s
            | _ => jsonStringify c
          else ""
        | none => ""))))
    | _ => none
  else if jsTruthy jr && truthyOpt res && truthyOpt (res.bind (jsField · "content")) then
    res.bind (jsField · "content")
  else
    some (.str (jsonStringify jr))

/-- Lines 76–85 applied to the raw `genText` value: a string goes through
`parseGenText`; a non-string is coerced by `JSON.parse`'s `String()`
conversion, and if that parse throws, the subsequent `genText.match` call
throws a `TypeError` (outer `none`). -/
def parseStage (genText : Json) : Option (Option Json) :=
  match genText with
  | .str s => some (parseGenText s)
  | v =>
    match jsonParse (jsToString v) with
    | some p => some (some p)
    | none => none

/-- The whole classifier-response digestion for a `responds` outcome:
outer `none` = a `TypeError` was thrown (surfaced as HTTP 500);
`some none` = the guard on line 87 fired (fallback engine runs);
`some (some l)` = the parsed reply's `redact_indices` are used. -/
def respondPipeline (jr : Json) : Option (Option (List Json)) :=
  match extractGenText jr with
  | none => none
  | some g =>
    match parseStage g with
    | none => none
    | some parsed => some (shapeCheck parsed)

/-- Truthiness of the `GOOGLE_API_KEY` environment value (unset or empty is
falsy). -/
def keyTruthy (apiKey : Option String) : Bool :=
  match apiKey with
  | none => false
  | some s => s != ""

/-- The API handler (`pages/api/gemini.js`), as a function of the request
method, the destructured body fields, the `GOOGLE_API_KEY` environment
value, and the outcome of the external call. -/
def handler (method : String) (items : ItemsField) (mode : String)
    (customTargets : List String) (apiKey : Option String)
    (outcome : FetchOutcome) : HandlerResult :=
  if method ≠ "POST" then .methodNotAllowed
  else
    match items with
    | .notList => .badRequest "No OCR items provided"
    | .list its =>
      if its.length = 0 then .badRequest "No OCR items provided"
      else if !keyTruthy apiKey then
        .configError "Server missing GOOGLE_API_KEY env var"
      else
        match outcome with
        | .throws err => .fetchError "Gemini call failed" err
        | .responds jr =>
          match respondPipeline jr with
          | none => .fetchError "Gemini call failed" "TypeError"
          | some (some l) => .ok l none
          | some none =>
            .ok (fallbackJson its mode customTargets) (some "fallback heuristics used")


/-! ## Redaction renderer (`pages/index.js`, `drawRedactions`) and the
client-side request construction (`requestRedactions`) -/

/-- The integer value of an exact decimal, when it is an integer
(`arr[1.0]` hits element 1; `arr[1.5]` is `undefined`). -/
def numToIndex (man exp : Int) : Option Int :=
  if 0 ≤ exp then some (man * 10 ^ exp.toNat)
  else if ((10 : Int) ^ (-exp).toNat) ∣ man then some (man / 10 ^ (-exp).toNat)
  else none

/-- A string that is a canonical array-index property name (the decimal
representation of a natural number, with no leading zero). -/
def canonicalNatStr? (s : String) : Option Nat :=
  let cs := s.toList
  if cs ≠ [] ∧ cs.all (·.isDigit) ∧ (s = "0" ∨ cs.head? ≠ some '0') then
    some (digitsToNat cs)
  else none

/-- `ocrItems[i]` for a JSON-sourced index `i`, combined with the
`if (!item) continue` guard: `none` when the access yields `undefined`
(out-of-range, negative, fractional, or non-index values).  A present token
object is always truthy, so the guard passes exactly when the access is
defined. -/
def jsResolve (items : List Token) (j : Json) : Option Token :=
  match j with
  | .num man exp =>
    (numToIndex man exp).bind (fun n =>
      if 0 ≤ n ∧ n < (items.length : Int) then items.get? n.toNat else none)
  | .str s => (canonicalNatStr? s).bind (fun n => items.get? n)
  | _ => none

/-- The tokens actually painted over by the render loop (lines 88–91 of
`pages/index.js`): each index is resolved and undefined resolutions are
skipped. -/
def drawRedactions (indices : List Json) (ocrItems : List Token) : List Token :=
  indices.filterMap (jsResolve ocrItems)

/-- Remove leading and trailing whitespace from a character list. -/
def charTrim (cs : List Char) : List Char :=
  ((cs.dropWhile jsWS).reverse.dropWhile jsWS).reverse

/-- `String.prototype.trim` (ASCII whitespace; no claim exercises Unicode
space characters). -/
def jsTrim (s : String) : String :=
  String.mk (charTrim s.toList)

/-- `String.prototype.split(",")`: cut at every comma, keeping empty
pieces. -/
def splitCommaChars (cur : List Char) : List Char → List String
  | [] => [String.mk cur.reverse]
  | c :: rest =>
    if c = ',' then String.mk cur.reverse :: splitCommaChars [] rest
    else splitCommaChars (c :: cur) rest

/-- Line 61 of `pages/index.js`:
`customTargets.split(",").map(s => s.trim()).filter(Boolean)`. -/
def buildCustomTargets (s : String) : List String :=
  ((splitCommaChars [] s.toList).map jsTrim).filter (fun t => t ≠ "")

/-! ## Handler-level lemmas -/

/-- For a valid `POST` request (nonempty item list, truthy credential), the
handler's result on a `responds` outcome is fully determined by
`respondPipeline`. -/
theorem handler_valid_responds (items : List Token) (mode : String)
    (cts : List String) (apiKey : Option String) (jr : Json)
    (hne : items ≠ []) (hkey : keyTruthy apiKey = true) :
    handler "POST" (.list items) mode cts apiKey (.responds jr) =
      match respondPipeline jr with
      | none => .fetchError "Gemini call failed" "TypeError"
      | some (some l) => .ok l none
      | some none =>
        .ok (fallbackJson items mode cts) (some "fallback heuristics used") := by
  have hlen : ¬ items.length = 0 := by simpa [List.length_eq_zero] using hne
  simp [handler, hlen, hkey]

/-- For a valid `POST` request, a thrown fetch is surfaced as the catch-all
HTTP 500 response. -/
theorem handler_valid_throws (items : List Token) (mode : String)
    (cts : List String) (apiKey : Option String) (err : String)
    (hne : items ≠ []) (hkey : keyTruthy apiKey = true) :
    handler "POST" (.list items) mode cts apiKey (.throws err) =
      .fetchError "Gemini call failed" err := by
  have hlen : ¬ items.length = 0 := by simpa [List.length_eq_zero] using hne
  simp [handler, hlen, hkey]

/-! ## Claim C5 — empty or non-list `items` fails fast with HTTP 400 -/

/-- C5: for every inbound request whose `items` field is empty or not a
list, the handler answers HTTP 400 `"No OCR items provided"` regardless of
the credential and of the classifier outcome — in particular before any
network call could influence the result. -/
theorem claim_C5_empty_items_rejected :
    ∀ (mode : String) (cts : List String) (apiKey : Option String)
      (outcome : FetchOutcome),
      handler "POST" (.list []) mode cts apiKey outcome =
          .badRequest "No OCR items provided" ∧
        handler "POST" .notList mode cts apiKey outcome =
          .badRequest "No OCR items provided" ∧
        statusOf (.badRequest "No OCR items provided") = 400 := by
  intro mode cts apiKey outcome
  exact ⟨rfl, rfl, rfl⟩

/-! ## Claim C9 — `"Hello"` is not flagged under autodetect -/

/-- C9: a token whose text is `"Hello"` is not flagged by the fallback
heuristic engine under `autodetect` mode with no custom targets. -/
theorem claim_C9_hello_not_flagged :
    fallbackIndices [⟨"Hello", 95, (0, 0, 10, 10)⟩] "autodetect" [] = [] := by
  decide

/-! ## Claim C1 — classifier unavailability -/

/-- C1 counterexample: a request that passes the empty-input and credential
checks, whose external call suffers a network failure (`fetch` rejects), is
answered with an HTTP 500 error — the error IS surfaced to the caller, and
the fallback heuristic response is not produced. -/
theorem claim_C1_counterexample :
    handler "POST" (.list [⟨"Hello", 95, (0, 0, 10, 10)⟩]) "autodetect" []
        (some "key") (.throws "FetchError: network failure") =
      .fetchError "Gemini call failed" "FetchError: network failure" ∧
    statusOf (handler "POST" (.list [⟨"Hello", 95, (0, 0, 10, 10)⟩]) "autodetect" []
        (some "key") (.throws "FetchError: network failure")) = 500 :=
  ⟨rfl, rfl⟩

/-- C1 as amended: a thrown external call (network failure, timeout,
non-JSON body) surfaces as HTTP 500 `"Gemini call failed"`; only an HTTP
response whose JSON body fails the `redact_indices` shape check degrades to
the fallback heuristic response. -/
theorem claim_C1_amended :
    ∀ (items : List Token) (mode : String) (cts : List String)
      (apiKey : Option String) (err : String) (jr : Json),
      items ≠ [] → keyTruthy apiKey = true →
      handler "POST" (.list items) mode cts apiKey (.throws err) =
          .fetchError "Gemini call failed" err ∧
        (respondPipeline jr = some none →
          handler "POST" (.list items) mode cts apiKey (.responds jr) =
            .ok (fallbackJson items mode cts) (some "fallback heuristics used")) := by
  intro items mode cts apiKey err jr hne hkey
  refine ⟨handler_valid_throws items mode cts apiKey err hne hkey, fun hpipe => ?_⟩
  rw [handler_valid_responds items mode cts apiKey jr hne hkey, hpipe]

/-- Witness for `claim_C1_amended` at a concrete request: a timeout yields
the 500 error, and a non-success JSON error body yields the noted fallback
response. -/
theorem claim_C1_amended_witness :
    handler "POST" (.list [⟨"Hello", 95, (0, 0, 10, 10)⟩]) "autodetect" []
        (some "k") (.throws "timeout") = .fetchError "Gemini call failed" "timeout" ∧
    handler "POST" (.list [⟨"Hello", 95, (0, 0, 10, 10)⟩]) "autodetect" []
        (some "k") (.responds (.obj [("error", .str "quota exceeded")])) =
      .ok (fallbackJson [⟨"Hello", 95, (0, 0, 10, 10)⟩] "autodetect" [])
        (some "fallback heuristics used") := by
  have h := claim_C1_amended [⟨"Hello", 95, (0, 0, 10, 10)⟩] "autodetect" []
    (some "k") "timeout" (.obj [("error", .str "quota exceeded")])
    (by simp) rfl
  exact ⟨h.1, h.2 rfl⟩

/-! ## Claim C6 — the diagnostic note marks exactly the fallback path -/

/-- C6: for a valid request whose external call returned a body (so the
pipeline reached the parse/shape stage without throwing), the finalized
response carries `note = "fallback heuristics used"` exactly when the shape
check failed and the fallback engine ran; a successfully parsed reply is
finalized with no note. -/
theorem claim_C6_note_marks_fallback :
    ∀ (items : List Token) (mode : String) (cts : List String)
      (apiKey : Option String) (jr : Json) (r : Option (List Json)),
      items ≠ [] → keyTruthy apiKey = true → respondPipeline jr = some r →
      (r = none →
        handler "POST" (.list items) mode cts apiKey (.responds jr) =
          .ok (fallbackJson items mode cts) (some "fallback heuristics used")) ∧
      (∀ l, r = some l →
        handler "POST" (.list items) mode cts apiKey (.responds jr) = .ok l none) := by
  intro items mode cts apiKey jr r hne hkey hpipe
  constructor
  · intro hr
    rw [handler_valid_responds items mode cts apiKey jr hne hkey, hpipe, hr]
  · intro l hr
    rw [handler_valid_responds items mode cts apiKey jr hne hkey, hpipe, hr]

/-- Witness for `claim_C6_note_marks_fallback`: an unparsable error body
leads to the noted fallback response; a well-shaped classifier reply leads
to an unnoted response. -/
theorem claim_C6_witness :
    handler "POST" (.list [⟨"Hello", 95, (0, 0, 10, 10)⟩]) "autodetect" []
        (some "k") (.responds (.obj [("error", .str "bad gateway")])) =
      .ok (fallbackJson [⟨"Hello", 95, (0, 0, 10, 10)⟩] "autodetect" [])
        (some "fallback heuristics used") ∧
    handler "POST" (.list [⟨"Hello", 95, (0, 0, 10, 10)⟩]) "autodetect" []
        (some "k")
        (.responds (.obj [("candidates",
          .arr [.obj [("output", .str "\x7b\"redact_indices\":[0]\x7d")]])])) =
      .ok [.num 0 0] none := by
  constructor
  · exact (claim_C6_note_marks_fallback [⟨"Hello", 95, (0, 0, 10, 10)⟩] "autodetect" []
      (some "k") (.obj [("error", .str "bad gateway")]) none
      (by simp) rfl rfl).1 rfl
  · exact (claim_C6_note_marks_fallback [⟨"Hello", 95, (0, 0, 10, 10)⟩] "autodetect" []
      (some "k") (.obj [("candidates",
        .arr [.obj [("output", .str "\x7b\"redact_indices\":[0]\x7d")]])]) (some [.num 0 0])
      (by simp) rfl rfl).2 [.num 0 0] rfl

/-! ## Claim C10 — the fallback decision depends only on the request -/

/-- C10: two pipeline runs on the identical `(items, mode, customTargets)`
request that both reach the fallback engine produce identical finalized
responses, whatever the (differing) credentials and classifier replies were
— the fallback decision is a pure function of the request alone. -/
theorem claim_C10_fallback_two_runs :
    ∀ (items : List Token) (mode : String) (cts : List String)
      (k₁ k₂ : Option String) (jr₁ jr₂ : Json),
      items ≠ [] → keyTruthy k₁ = true → keyTruthy k₂ = true →
      respondPipeline jr₁ = some none → respondPipeline jr₂ = some none →
      handler "POST" (.list items) mode cts k₁ (.responds jr₁) =
        handler "POST" (.list items) mode cts k₂ (.responds jr₂) := by
  intro items mode cts k₁ k₂ jr₁ jr₂ hne hk₁ hk₂ hp₁ hp₂
  rw [handler_valid_responds items mode cts k₁ jr₁ hne hk₁, hp₁,
    handler_valid_responds items mode cts k₂ jr₂ hne hk₂, hp₂]

/-- Witness for `claim_C10_fallback_two_runs`: two runs with different
credentials and different unusable classifier replies agree. -/
theorem claim_C10_witness :
    handler "POST" (.list [⟨"Hello", 95, (0, 0, 10, 10)⟩]) "custom" ["a"]
        (some "k1") (.responds (.obj [("error", .str "quota")])) =
      handler "POST" (.list [⟨"Hello", 95, (0, 0, 10, 10)⟩]) "custom" ["a"]
        (some "another-key") (.responds (.str "NOT JSON AT ALL")) :=
  claim_C10_fallback_two_runs [⟨"Hello", 95, (0, 0, 10, 10)⟩] "custom" ["a"]
    (some "k1") (some "another-key") (.obj [("error", .str "quota")])
    (.str "NOT JSON AT ALL") (by simp) rfl rfl rfl rfl

/-! ## Claim C2 — the response parser -/

/-- Modelled from the spec: the "array of integers" element test used by the
claim's success condition. -/
def isIntJson : Json → Bool
  | .num _ e => 0 ≤ e
  | _ => false

/-- Modelled from the spec: accept a parsed value only if it has a
`redact_indices` field that is an array of integers. -/
def intArrayField (v : Json) : Option (List Json) :=
  match jsField v "redact_indices" with
  | some (.arr l) => if l.all isIntJson then some l else none
  | _ => none

/-- Modelled from the spec: the matching close brace of an opening brace at
the start (depth counting), yielding the balanced span. -/
def bspanAux (depth : Nat) (acc : List Char) : List Char → Option (List Char)
  | [] => none
  | c :: rest =>
    if c = '{' then bspanAux (depth + 1) (acc ++ [c]) rest
    else if c = '}' then
      if depth ≤ 1 then some (acc ++ [c]) else bspanAux (depth - 1) (acc ++ [c]) rest
    else bspanAux depth (acc ++ [c]) rest

/-- Modelled from the spec: the first substring that is a balanced `{...}`
object span. -/
def balancedSpan : List Char → Option (List Char)
  | [] => none
  | c :: rest =>
    if c = '{' then
      match bspanAux 1 [c] rest with
      | some sp => some sp
      | none => balancedSpan rest
    else balancedSpan rest

/-- Modelled from the spec: the response parser exactly as claim C2 states
it — attempt 1 parses the whole text and succeeds only with an
integer-array `redact_indices`; attempt 2 (on any attempt-1 failure)
re-parses the first balanced brace span under the same condition. -/
def specClaimParse (s : String) : Option (List Json) :=
  let att2 : Option (List Json) :=
    match balancedSpan s.toList with
    | some sub => (jsonParse (String.mk sub)).bind intArrayField
    | none => none
  match jsonParse s with
  | some v =>
    match intArrayField v with
    | some l => some l
    | none => att2
  | none => att2

/-- C2 counterexample: three raw classifier texts on which the parser the
claim describes and the code's parser (`codeParseDecision`) disagree.
On `t0 = "{"redact_indices":[7]} }"` the claim's balanced-span retry
succeeds with `[7]` but the code's greedy first-`{`-to-last-`}` span is
unparsable, so the code falls back.  On `t1 = "{"redact_indices":["a"]}"`
the claim demands `ParseFailure` (elements are not integers) but the code
accepts the string-typed array.  On `t2 = "[{"redact_indices":[1]}]"` the
whole text parses as a JSON array, so the code never attempts the span scan
and falls back, while the claim's attempt 2 would succeed with `[1]`. -/
theorem claim_C2_counterexample :
    codeParseDecision "\x7b\"redact_indices\":[7]\x7d \x7d" = none ∧
    specClaimParse "\x7b\"redact_indices\":[7]\x7d \x7d" = some [.num 7 0] ∧
    codeParseDecision "\x7b\"redact_indices\":[\"a\"]\x7d" = some [.str "a"] ∧
    specClaimParse "\x7b\"redact_indices\":[\"a\"]\x7d" = none ∧
    codeParseDecision "[\x7b\"redact_indices\":[1]\x7d]" = none ∧
    specClaimParse "[\x7b\"redact_indices\":[1]\x7d]" = some [.num 1 0] :=
  ⟨rfl, rfl, rfl, rfl, rfl, rfl⟩

/-- `findIdx?` on a list whose prefix has no match locates the first match
after the prefix. -/
theorem findIdx?_no_match_prefix (p : Char → Bool) :
    ∀ (pre : List Char) (x : Char) (t : List Char) (i : Nat),
      (∀ c ∈ pre, p c = false) → p x = true →
      List.findIdx? p (pre ++ x :: t) i = some (i + pre.length) := by
  intro pre
  induction pre with
  | nil =>
    intro x t i _ hx
    simp [List.findIdx?_cons, hx]
  | cons a l ih =>
    intro x t i h hx
    have ha : p a = false := h a (by simp)
    rw [List.cons_append, List.findIdx?_cons, ha]
    simp only [Bool.false_eq_true, if_false]
    rw [ih x t (i + 1) (fun c hc => h c (by simp [hc])) hx]
    congr 1
    simp
    omega

/-- `findIdx?` finds nothing when nothing matches. -/
theorem findIdx?_all_no_match (p : Char → Bool) :
    ∀ (l : List Char) (i : Nat), (∀ c ∈ l, p c = false) →
      List.findIdx? p l i = none := by
  intro l
  induction l with
  | nil => intro i _; simp
  | cons a t ih =>
    intro i h
    rw [List.findIdx?_cons, h a (by simp)]
    simp only [Bool.false_eq_true, if_false]
    exact ih (i + 1) (fun c hc => h c (by simp [hc]))

/-- The greedy span regex on a text decomposed around its first `{` and its
last `}` extracts exactly the characters between them (inclusive). -/
theorem braceSpan_decomp (pre mid post : List Char)
    (hpre : ∀ c ∈ pre, c ≠ '{') (hpost : ∀ c ∈ post, c ≠ '}') :
    braceSpan (pre ++ '{' :: (mid ++ '}' :: post)) = some ('{' :: (mid ++ ['}'])) := by
  have h1 : List.findIdx? (· = '{') (pre ++ '{' :: (mid ++ '}' :: post)) =
      some pre.length := by
    have := findIdx?_no_match_prefix (· = '{') pre '{' (mid ++ '}' :: post) 0
      (fun c hc => by simpa using hpre c hc) (by simp)
    simpa using this
  have hrev : (pre ++ '{' :: (mid ++ '}' :: post)).reverse =
      post.reverse ++ '}' :: (mid.reverse ++ '{' :: pre.reverse) := by
    simp
  have h2 : List.findIdx? (· = '}') (pre ++ '{' :: (mid ++ '}' :: post)).reverse =
      some post.length := by
    rw [hrev]
    have := findIdx?_no_match_prefix (· = '}') post.reverse '}'
      (mid.reverse ++ '{' :: pre.reverse) 0
      (fun c hc => by simpa using hpost c (List.mem_reverse.mp hc)) (by simp)
    simpa using this
  have hlen : (pre ++ '{' :: (mid ++ '}' :: post)).length =
      pre.length + mid.length + post.length + 2 := by
    simp
    omega
  simp only [braceSpan, h1, h2, hlen]
  have hj : pre.length + mid.length + post.length + 2 - 1 - post.length =
      pre.length + mid.length + 1 := by omega
  rw [hj, if_pos (by omega)]
  have hdrop : (pre ++ '{' :: (mid ++ '}' :: post)).drop pre.length =
      '{' :: (mid ++ '}' :: post) := List.drop_left pre _
  rw [hdrop]
  have htake : pre.length + mid.length + 1 - pre.length + 1 = mid.length + 1 + 1 := by
    omega
  rw [htake, List.take_succ_cons]
  have : mid.length + 1 = (mid ++ ['}']).length := by simp
  congr 1
  rw [show ('}' :: post) = ['}'] ++ post by rfl, show mid.length + 1 = mid.length + 1 by rfl]
  rw [← List.append_assoc]
  have : mid.length + 1 = (mid ++ ['}']).length := by simp
  rw [this, List.take_left]

/-- C2 as amended: the parser first attempts `JSON.parse` on the whole text,
and a success is final — the shape condition (an array-typed
`redact_indices`, element types unchecked) is evaluated on it with no
second attempt.  Only when the whole-text parse throws does the parser
retry on the substring running from the first `{` of the text to the last
`}`; if there is no `{` at all the result is `ParseFailure` (`none`), the
fallback trigger. -/
theorem claim_C2_amended :
    ∀ (s : String),
      (∀ v, jsonParse s = some v → codeParseDecision s = shapeOfValue v) ∧
      (jsonParse s = none →
        (∀ pre mid post, s.toList = pre ++ '{' :: (mid ++ '}' :: post) →
          (∀ c ∈ pre, c ≠ '{') → (∀ c ∈ post, c ≠ '}') →
          codeParseDecision s =
            match jsonParse (String.mk ('{' :: (mid ++ ['}']))) with
            | some v => shapeOfValue v
            | none => none) ∧
        ((∀ c ∈ s.toList, c ≠ '{') → codeParseDecision s = none)) := by
  intro s
  constructor
  · intro v hv
    simp [codeParseDecision, parseGenText, hv, shapeCheck]
  · intro hnone
    constructor
    · intro pre mid post hdec hpre hpost
      have hspan : braceSpan s.toList = some ('{' :: (mid ++ ['}'])) := by
        rw [hdec]; exact braceSpan_decomp pre mid post hpre hpost
      simp only [codeParseDecision, parseGenText, hnone, hspan, shapeCheck]
      cases jsonParse (String.mk ('{' :: (mid ++ ['}']))) <;> rfl
    · intro hno
      have hidx : List.findIdx? (· = '{') s.data = none :=
        findIdx?_all_no_match (· = '{') s.data 0
          (fun c hc => by simpa using hno c (by simpa [String.toList] using hc))
      simp [codeParseDecision, parseGenText, hnone, braceSpan, hidx, shapeCheck]

/-- Witness for `claim_C2_amended`: on a text with junk before the object,
where the whole-text parse throws, the greedy-span retry succeeds and the
shape check accepts the array. -/
theorem claim_C2_amended_witness :
    codeParseDecision "x\x7b\"redact_indices\":[4]\x7d" = some [.num 4 0] := by
  have h := ((claim_C2_amended "x\x7b\"redact_indices\":[4]\x7d").2 rfl).1
    ['x'] "\"redact_indices\":[4]".toList [] rfl (by decide) (by decide)
  exact h.trans rfl

/-! ## Structural lemmas about the fallback engine's index accumulation -/

/-- The inner custom-target loop only appends, so it preserves membership. -/
theorem customFold_sub (t : String) (idx : Nat) :
    ∀ (cts : List String) (a : List Nat), a ⊆ cts.foldl (customStep t idx) a := by
  intro cts
  induction cts with
  | nil => intro a; simp
  | cons ct rest ih =>
    intro a
    rw [List.foldl_cons]
    refine List.Subset.trans ?_ (ih (customStep t idx a ct))
    unfold customStep
    by_cases h : ((ct != "") && strIncludes (lowerStr t) (lowerStr ct)) = true
    · rw [if_pos h]
      by_cases hm : idx ∈ a
      · rw [if_pos hm]
        exact List.Subset.refl a
      · rw [if_neg hm]; exact List.subset_append_left a [idx]
    · rw [if_neg h]
      exact List.Subset.refl a

/-- Once the index is present, the custom-target loop changes nothing. -/
theorem customFold_id_of_mem (t : String) (idx : Nat) :
    ∀ (cts : List String) (a : List Nat), idx ∈ a →
      cts.foldl (customStep t idx) a = a := by
  intro cts
  induction cts with
  | nil => intro a _; rfl
  | cons ct rest ih =>
    intro a hm
    rw [List.foldl_cons]
    have hstep : customStep t idx a ct = a := by
      unfold customStep
      by_cases h : ((ct != "") && strIncludes (lowerStr t) (lowerStr ct)) = true
      · rw [if_pos h, if_pos hm]
      · rw [if_neg h]
    rw [hstep]
    exact ih a hm

/-- The custom-target loop either leaves the accumulator unchanged or
appends the current index exactly once (when it was absent). -/
theorem customFold_cases (t : String) (idx : Nat) :
    ∀ (cts : List String) (a : List Nat),
      cts.foldl (customStep t idx) a = a ∨
        (idx ∉ a ∧ cts.foldl (customStep t idx) a = a ++ [idx]) := by
  intro cts
  induction cts with
  | nil => intro a; left; rfl
  | cons ct rest ih =>
    intro a
    rw [List.foldl_cons]
    by_cases h : ((ct != "") && strIncludes (lowerStr t) (lowerStr ct)) = true
    · by_cases hm : idx ∈ a
      · have hstep : customStep t idx a ct = a := by
          unfold customStep; rw [if_pos h, if_pos hm]
        rw [hstep]; exact ih a
      · have hstep : customStep t idx a ct = a ++ [idx] := by
          unfold customStep; rw [if_pos h, if_neg hm]
        rw [hstep]
        right
        exact ⟨hm, customFold_id_of_mem t idx rest (a ++ [idx]) (by simp)⟩
    · have hstep : customStep t idx a ct = a := by
        unfold customStep; rw [if_neg h]
      rw [hstep]; exact ih a

/-- If some listed target is truthy and matched, the loop ends with the
index present. -/
theorem customFold_mem_of_target (t : String) (idx : Nat) :
    ∀ (cts : List String) (a : List Nat) (ct : String), ct ∈ cts →
      ((ct != "") && strIncludes (lowerStr t) (lowerStr ct)) = true →
      idx ∈ cts.foldl (customStep t idx) a := by
  intro cts
  induction cts with
  | nil => intro a ct h; exact absurd h (List.not_mem_nil ct)
  | cons hd rest ih =>
    intro a ct hmem hcond
    rw [List.foldl_cons]
    rcases List.mem_cons.mp hmem with heq | htl
    · subst heq
      refine customFold_sub t idx rest _ ?_
      unfold customStep
      rw [if_pos hcond]
      by_cases hm : idx ∈ a
      · rw [if_pos hm]; exact hm
      · rw [if_neg hm]; simp
    · exact ih (customStep t idx a hd) ct htl hcond

/-- One `forEach` iteration only appends. -/
theorem fallbackStep_sub (mode : String) (cts : List String) (acc : List Nat)
    (p : Nat × Token) : acc ⊆ fallbackStep mode cts acc p := by
  simp only [fallbackStep]
  by_cases hp : fallbackPatterns p.2.text = true
  · rw [if_pos hp]
    by_cases hm : mode = "custom"
    · rw [if_pos hm]
      exact List.Subset.trans (List.subset_append_left acc [p.1]) (customFold_sub _ _ cts _)
    · rw [if_neg hm]
      exact List.subset_append_left acc [p.1]
  · rw [if_neg hp]
    by_cases hm : mode = "custom"
    · rw [if_pos hm]; exact customFold_sub _ _ cts acc
    · rw [if_neg hm]
      exact List.Subset.refl acc

/-- One `forEach` iteration at a fresh index either leaves the accumulator
unchanged or appends that index once. -/
theorem fallbackStep_cases (mode : String) (cts : List String) (acc : List Nat)
    (idx : Nat) (tok : Token) :
    fallbackStep mode cts acc (idx, tok) = acc ∨
      fallbackStep mode cts acc (idx, tok) = acc ++ [idx] := by
  simp only [fallbackStep]
  by_cases hp : fallbackPatterns tok.text = true
  · simp only [hp, if_true]
    by_cases hm : mode = "custom"
    · rw [if_pos hm, customFold_id_of_mem tok.text idx cts (acc ++ [idx]) (by simp)]
      right; rfl
    · rw [if_neg hm]; right; rfl
  · simp only [hp, if_false]
    by_cases hm : mode = "custom"
    · rw [if_pos hm]
      rcases customFold_cases tok.text idx cts acc with h | ⟨_, h⟩
      · left; exact h
      · right; exact h
    · rw [if_neg hm]; left; rfl

/-- A pattern hit puts the index into the step's result. -/
theorem fallbackStep_mem_pattern (mode : String) (cts : List String) (acc : List Nat)
    (idx : Nat) (tok : Token) (hp : fallbackPatterns tok.text = true) :
    idx ∈ fallbackStep mode cts acc (idx, tok) := by
  simp only [fallbackStep]
  simp only [hp, if_true]
  by_cases hm : mode = "custom"
  · rw [if_pos hm]; exact customFold_sub tok.text idx cts _ (by simp)
  · rw [if_neg hm]; simp

/-- A matched truthy custom target puts the index into the step's result in
custom mode. -/
theorem fallbackStep_mem_custom (cts : List String) (acc : List Nat)
    (idx : Nat) (tok : Token) (ct : String) (hct : ct ∈ cts)
    (hcond : ((ct != "") && strIncludes (lowerStr tok.text) (lowerStr ct)) = true) :
    idx ∈ fallbackStep "custom" cts acc (idx, tok) := by
  simp only [fallbackStep]
  simp only [if_true]
  exact customFold_mem_of_target tok.text idx cts _ ct hct hcond

/-- The whole `forEach` only appends. -/
theorem foldPairs_sub (mode : String) (cts : List String) :
    ∀ (l : List (Nat × Token)) (acc : List Nat),
      acc ⊆ l.foldl (fallbackStep mode cts) acc := by
  intro l
  induction l with
  | nil => intro acc; simp
  | cons p rest ih =>
    intro acc
    rw [List.foldl_cons]
    exact List.Subset.trans (fallbackStep_sub mode cts acc p) (ih _)

/-- Folding the `forEach` body over tokens enumerated from `n` keeps every
index below `n + length` and keeps the accumulator duplicate-free, provided
the incoming accumulator only holds indices below `n`. -/
theorem foldEnum_bounds (mode : String) (cts : List String) :
    ∀ (l : List Token) (n : Nat) (acc : List Nat),
      (∀ x ∈ acc, x < n) → acc.Nodup →
      (∀ x ∈ (List.enumFrom n l).foldl (fallbackStep mode cts) acc,
          x < n + l.length) ∧
        ((List.enumFrom n l).foldl (fallbackStep mode cts) acc).Nodup := by
  intro l
  induction l with
  | nil =>
    intro n acc hb hnd
    refine ⟨fun x hx => ?_, by simpa using hnd⟩
    simp only [List.enumFrom, List.foldl_nil] at hx
    simpa using Nat.lt_of_lt_of_le (hb x hx) (Nat.le_add_right n 0)
  | cons tok rest ih =>
    intro n acc hb hnd
    rw [List.enumFrom_cons, List.foldl_cons]
    have hfresh : n ∉ acc := fun h => lt_irrefl n (hb n h)
    have hcases := fallbackStep_cases mode cts acc n tok
    have hb' : ∀ x ∈ fallbackStep mode cts acc (n, tok), x < n + 1 := by
      rcases hcases with h | h <;> rw [h] <;> intro x hx
      · exact Nat.lt_succ_of_lt (hb x hx)
      · rcases List.mem_append.mp hx with h1 | h1
        · exact Nat.lt_succ_of_lt (hb x h1)
        · have : x = n := by simpa using h1
          omega
    have hnd' : (fallbackStep mode cts acc (n, tok)).Nodup := by
      rcases hcases with h | h <;> rw [h]
      · exact hnd
      · rw [List.nodup_append]
        refine ⟨hnd, List.nodup_singleton n, ?_⟩
        intro x hx hx1
        have : x = n := by simpa using hx1
        exact hfresh (this ▸ hx)
    obtain ⟨hbnd, hndf⟩ := ih (n + 1) _ hb' hnd'
    refine ⟨fun x hx => ?_, hndf⟩
    have := hbnd x hx
    simp only [List.length_cons]
    omega

/-- Whenever one `forEach` iteration at position `idx` is guaranteed to
record `idx`, the final fallback result contains `idx`. -/
theorem fallbackIndices_mem_of_step (items : List Token) (mode : String)
    (cts : List String) (idx : Nat) (tok : Token)
    (hget : items.get? idx = some tok)
    (hstep : ∀ acc, idx ∈ fallbackStep mode cts acc (idx, tok)) :
    idx ∈ fallbackIndices items mode cts := by
  obtain ⟨hlt, hgetE⟩ := List.get?_eq_some.mp hget
  have key : ∀ (pre post : List Token), pre.length = idx →
      idx ∈ fallbackIndices (pre ++ tok :: post) mode cts := by
    intro pre post hlen
    unfold fallbackIndices
    rw [List.enumFrom_append, hlen, List.foldl_append, List.enumFrom_cons,
      List.foldl_cons]
    simp only [Nat.zero_add]
    exact foldPairs_sub mode cts _ _ (hstep _)
  have hdecomp : items = items.take idx ++ tok :: items.drop (idx + 1) := by
    conv_lhs => rw [← List.take_append_drop idx items]
    rw [List.drop_eq_getElem_cons hlt]
    rw [show items[idx] = items.get ⟨idx, hlt⟩ from rfl, hgetE]
  have hlen : (items.take idx).length = idx := by
    rw [List.length_take]
    omega
  rw [hdecomp]
  exact key _ _ hlen

/-! ## Claim C4 — custom-mode substring matches, without duplicates -/

/-- C4: in custom mode the fallback result contains the index of every
token whose lowercased text contains some (non-empty, per the
`DecisionRequest` data model) lowercased target as a substring — in
addition to every token matched by a built-in detector pattern — and the
result never contains duplicate indices. -/
theorem claim_C4_custom_substring :
    ∀ (items : List Token) (cts : List String) (idx : Nat) (tok : Token)
      (ct : String),
      items.get? idx = some tok →
      ((ct ∈ cts ∧ ct ≠ "" ∧ strIncludes (lowerStr tok.text) (lowerStr ct) = true) ∨
        fallbackPatterns tok.text = true) →
      idx ∈ fallbackIndices items "custom" cts ∧
        (fallbackIndices items "custom" cts).Nodup := by
  intro items cts idx tok ct hget hhit
  refine ⟨?_, (foldEnum_bounds "custom" cts items 0 [] (by simp) (by simp)).2⟩
  rcases hhit with ⟨hmem, hne, hinc⟩ | hp
  · have hcond : ((ct != "") && strIncludes (lowerStr tok.text) (lowerStr ct)) = true := by
      simp [bne_iff_ne, hne, hinc]
    exact fallbackIndices_mem_of_step items "custom" cts idx tok hget
      (fun acc => fallbackStep_mem_custom cts acc idx tok ct hmem hcond)
  · exact fallbackIndices_mem_of_step items "custom" cts idx tok hget
      (fun acc => fallbackStep_mem_pattern "custom" cts acc idx tok hp)

/-- Witness for `claim_C4_custom_substring`: target `"secret"` flags the
token `"TopSecretFile"` at index 1, case-insensitively, and the result list
is duplicate-free. -/
theorem claim_C4_witness :
    1 ∈ fallbackIndices [⟨"Hello", 95, (0, 0, 10, 10)⟩,
        ⟨"TopSecretFile", 90, (0, 0, 10, 10)⟩] "custom" ["secret"] ∧
      (fallbackIndices [⟨"Hello", 95, (0, 0, 10, 10)⟩,
        ⟨"TopSecretFile", 90, (0, 0, 10, 10)⟩] "custom" ["secret"]).Nodup :=
  claim_C4_custom_substring
    [⟨"Hello", 95, (0, 0, 10, 10)⟩, ⟨"TopSecretFile", 90, (0, 0, 10, 10)⟩]
    ["secret"] 1 ⟨"TopSecretFile", 90, (0, 0, 10, 10)⟩ "secret"
    rfl (Or.inl ⟨by simp, by decide, by decide⟩)

/-! ## Claim C7 — index validity and render-time safety -/

/-- C7: every index produced by the fallback engine lies below the item
count; every token the renderer actually paints is a real token of the
list; and a numeric index outside `[0, length)` resolves to `undefined`
(so the render loop skips it instead of failing). -/
theorem claim_C7_index_safety :
    ∀ (items : List Token) (mode : String) (cts : List String)
      (indices : List Json),
      (∀ i ∈ fallbackIndices items mode cts, i < items.length) ∧
        (∀ tok ∈ drawRedactions indices items, tok ∈ items) ∧
        (∀ n : Int, n < 0 ∨ (items.length : Int) ≤ n →
          jsResolve items (.num n 0) = none) := by
  intro items mode cts indices
  refine ⟨?_, ?_, ?_⟩
  · intro i hi
    have := (foldEnum_bounds mode cts items 0 [] (by simp) (by simp)).1 i hi
    simpa using this
  · intro tok htok
    obtain ⟨j, _, hres⟩ := List.mem_filterMap.mp htok
    cases j with
    | num man exp =>
      simp only [jsResolve] at hres
      obtain ⟨n, _, hif⟩ := Option.bind_eq_some.mp hres
      by_cases hr : 0 ≤ n ∧ n < (items.length : Int)
      · rw [if_pos hr] at hif
        exact List.get?_mem hif
      · rw [if_neg hr] at hif
        exact absurd hif (by simp)
    | str s =>
      simp only [jsResolve] at hres
      obtain ⟨n, _, hget⟩ := Option.bind_eq_some.mp hres
      exact List.get?_mem hget
    | null => simp [jsResolve] at hres
    | bool b => simp [jsResolve] at hres
    | arr l => simp [jsResolve] at hres
    | obj fs => simp [jsResolve] at hres
  · intro n hn
    simp only [jsResolve, numToIndex, if_pos (le_refl (0 : Int))]
    have hval : n * 10 ^ (0 : Int).toNat = n := by norm_num
    rw [hval, Option.some_bind,
      if_neg (show ¬(0 ≤ n ∧ n < (items.length : Int)) by omega)]

/-- Witness for `claim_C7_index_safety`: on a one-token list the fallback
index 0 is in range, the token painted for index 0 is the real token, and
the out-of-range index 5 resolves to `undefined`. -/
theorem claim_C7_witness :
    0 < [(⟨"4111 1111 1111 1111", 99, (0, 0, 10, 10)⟩ : Token)].length ∧
      (⟨"4111 1111 1111 1111", 99, (0, 0, 10, 10)⟩ : Token) ∈
        [(⟨"4111 1111 1111 1111", 99, (0, 0, 10, 10)⟩ : Token)] ∧
      jsResolve [(⟨"4111 1111 1111 1111", 99, (0, 0, 10, 10)⟩ : Token)] (.num 5 0) =
        none := by
  have h := claim_C7_index_safety
    [(⟨"4111 1111 1111 1111", 99, (0, 0, 10, 10)⟩ : Token)] "autodetect" []
    [.num 0 0]
  refine ⟨h.1 0 ?_, h.2.1 ⟨"4111 1111 1111 1111", 99, (0, 0, 10, 10)⟩ ?_, h.2.2 5 ?_⟩
  · show 0 ∈ fallbackIndices _ "autodetect" []
    exact List.mem_singleton.mpr rfl
  · exact List.mem_singleton.mpr rfl
  · right
    norm_num

/-! ## Claim C3 — card-like digit runs are always flagged -/

/-- Interleave digit groups with single separator characters:
`g1 s1 g2 s2 ... gm`. -/
def cardRunList : List (List Char) → List Char → List Char
  | [], _ => []
  | [g], _ => g
  | g :: gs, s :: ss => g ++ s :: cardRunList gs ss
  | g :: gs, [] => g ++ cardRunList gs []

/-- The spec's notion of a card-like run: the text contains a contiguous
substring made of non-empty digit groups separated by single spaces or
hyphens, whose digits total 13 to 19. -/
def containsCardRun (s : String) : Prop :=
  ∃ (gs : List (List Char)) (ss : List Char),
    gs ≠ [] ∧ (∀ g ∈ gs, (∀ c ∈ g, c.isDigit = true) ∧ g ≠ []) ∧
    ss.length + 1 = gs.length ∧ (∀ c ∈ ss, cardSep c = true) ∧
    13 ≤ (gs.map List.length).sum ∧ (gs.map List.length).sum ≤ 19 ∧
    cardRunList gs ss <:+: s.toList

/-- The start position always appears among the remainders of an optional
character. -/
theorem optChar_self (p : Char → Bool) (cs : List Char) : cs ∈ optChar p cs := by
  cases cs with
  | nil => simp [optChar]
  | cons c rest =>
    simp only [optChar]
    by_cases h : p c = true <;> simp [h]

/-- One repetition consumes one digit (separator declined). -/
theorem cardReps_step (d : Char) (n : Nat) (tail r : List Char)
    (hd : d.isDigit = true) (h : r ∈ cardReps n tail) :
    r ∈ cardReps (n + 1) (d :: tail) := by
  simp only [cardReps, cardGroup, hd, if_true, List.mem_flatMap]
  exact ⟨tail, optChar_self cardSep tail, h⟩

/-- Composing repetition counts composes remainders. -/
theorem cardReps_compose :
    ∀ (a b : Nat) (cs r₁ r₂ : List Char), r₁ ∈ cardReps a cs →
      r₂ ∈ cardReps b r₁ → r₂ ∈ cardReps (a + b) cs := by
  intro a
  induction a with
  | zero =>
    intro b cs r₁ r₂ h₁ h₂
    simp only [cardReps, List.mem_singleton] at h₁
    subst h₁
    simpa using h₂
  | succ a ih =>
    intro b cs r₁ r₂ h₁ h₂
    simp only [cardReps, List.mem_flatMap] at h₁
    obtain ⟨g, hg, hr₁⟩ := h₁
    have : r₂ ∈ cardReps (a + b) g := ih b g r₁ r₂ hr₁ h₂
    have hsum : a + 1 + b = (a + b) + 1 := by omega
    rw [hsum]
    simp only [cardReps, List.mem_flatMap]
    exact ⟨g, hg, this⟩

/-- A pure digit group can be consumed, one repetition per digit, leaving
any continuation behind. -/
theorem cardReps_digits :
    ∀ (g rest : List Char), (∀ c ∈ g, c.isDigit = true) →
      rest ∈ cardReps g.length (g ++ rest) := by
  intro g
  induction g with
  | nil => intro rest _; simp [cardReps]
  | cons d g' ih =>
    intro rest hdig
    have hd : d.isDigit = true := hdig d (by simp)
    exact cardReps_step d g'.length (g' ++ rest) rest hd
      (ih rest (fun c hc => hdig c (by simp [hc])))

/-- A non-empty digit group followed by one separator can be consumed, the
separator riding on the group's last repetition. -/
theorem cardReps_digits_sep :
    ∀ (g : List Char) (s : Char) (rest : List Char),
      (∀ c ∈ g, c.isDigit = true) → g ≠ [] → cardSep s = true →
      rest ∈ cardReps g.length (g ++ s :: rest) := by
  intro g
  induction g with
  | nil => intro s rest _ hne _; exact absurd rfl hne
  | cons d g' ih =>
    intro s rest hdig hne hs
    have hd : d.isDigit = true := hdig d (by simp)
    cases g' with
    | nil =>
      show rest ∈ (cardGroup (d :: s :: rest)).flatMap (cardReps 0)
      refine List.mem_flatMap.mpr ⟨rest, ?_, by simp [cardReps]⟩
      simp [cardGroup, hd, optChar, hs]
    | cons e g'' =>
      exact cardReps_step d (e :: g'').length ((e :: g'') ++ s :: rest) rest hd
        (ih s rest (fun c hc => hdig c (by simp at hc ⊢; tauto)) (by simp) hs)

/-- The whole interleaved run can be consumed, with one repetition per
digit. -/
theorem cardReps_run :
    ∀ (gs : List (List Char)) (ss rest : List Char),
      (∀ g ∈ gs, (∀ c ∈ g, c.isDigit = true) ∧ g ≠ []) →
      ss.length + 1 = gs.length → (∀ c ∈ ss, cardSep c = true) →
      rest ∈ cardReps ((gs.map List.length).sum) (cardRunList gs ss ++ rest) := by
  intro gs
  induction gs with
  | nil => intro ss rest _ hlen _; simp at hlen
  | cons g gs' ih =>
    intro ss rest hdig hlen hsep
    cases gs' with
    | nil =>
      have hss : ss = [] := by
        have : ss.length = 0 := by simpa using hlen
        exact List.length_eq_zero.mp this
      subst hss
      simp only [cardRunList, List.map_cons, List.map_nil, List.sum_cons, List.sum_nil,
        Nat.add_zero]
      exact cardReps_digits g rest (hdig g (by simp)).1
    | cons g₂ gs'' =>
      cases ss with
      | nil => simp at hlen
      | cons s ss' =>
        have hrw : cardRunList (g :: g₂ :: gs'') (s :: ss') ++ rest =
            g ++ s :: (cardRunList (g₂ :: gs'') ss' ++ rest) := by
          simp [cardRunList]
        rw [hrw]
        have hsum : ((g :: g₂ :: gs'').map List.length).sum =
            g.length + ((g₂ :: gs'').map List.length).sum := by simp
        rw [hsum]
        refine cardReps_compose g.length _ _ _ rest
          (cardReps_digits_sep g s _ (hdig g (by simp)).1 (hdig g (by simp)).2
            (hsep s (by simp))) ?_
        exact ih ss' rest (fun g' hg' => hdig g' (by simp [hg']))
          (by simpa using hlen) (fun c hc => hsep c (by simp [hc]))

/-- Any text containing a card-like run is matched by the card regex. -/
theorem card_run_matches (s : String) (h : containsCardRun s) :
    reCardTest s = true := by
  obtain ⟨gs, ss, _, hdig, hlen, hsep, h13, h19, hinf⟩ := h
  obtain ⟨pre, post, heq⟩ := hinf
  have hsuffix : cardRunList gs ss ++ post <:+ s.toList :=
    ⟨pre, by rw [← heq]; simp⟩
  have hmem := cardReps_run gs ss post hdig hlen hsep
  unfold reCardTest reTest
  rw [List.any_eq_true]
  refine ⟨cardRunList gs ss ++ post, (List.mem_tails _ _).mpr hsuffix, ?_⟩
  unfold cardAt
  rw [List.any_eq_true]
  refine ⟨(gs.map List.length).sum, ?_, ?_⟩
  · rw [List.mem_range']
    exact ⟨(gs.map List.length).sum - 13, by omega, by omega⟩
  · rw [Bool.not_eq_true']
    exact List.isEmpty_eq_false.mpr (List.ne_nil_of_mem hmem)

/-- C3: under every mode and every custom-target list, the fallback engine
flags every token whose text contains a run of digit groups, optionally
separated by single spaces or hyphens, totaling 13 to 19 digits. -/
theorem claim_C3_card_runs_flagged :
    ∀ (items : List Token) (mode : String) (cts : List String) (idx : Nat)
      (tok : Token),
      items.get? idx = some tok → containsCardRun tok.text →
      idx ∈ fallbackIndices items mode cts := by
  intro items mode cts idx tok hget hrun
  have hcard : reCardTest tok.text = true := card_run_matches tok.text hrun
  have hp : fallbackPatterns tok.text = true := by simp [fallbackPatterns, hcard]
  exact fallbackIndices_mem_of_step items mode cts idx tok hget
    (fun acc => fallbackStep_mem_pattern mode cts acc idx tok hp)

/-- Witness for `claim_C3_card_runs_flagged`: the token
`"4111 1111 1111 1111"` (16 digits in four groups) is flagged, here under
custom mode with no targets. -/
theorem claim_C3_witness :
    0 ∈ fallbackIndices [⟨"4111 1111 1111 1111", 99, (0, 0, 10, 10)⟩] "custom" [] := by
  apply claim_C3_card_runs_flagged [⟨"4111 1111 1111 1111", 99, (0, 0, 10, 10)⟩]
    "custom" [] 0 ⟨"4111 1111 1111 1111", 99, (0, 0, 10, 10)⟩ rfl
  refine ⟨["4111".toList, "1111".toList, "1111".toList, "1111".toList],
    [' ', ' ', ' '], by simp, by decide, by decide, by decide, by decide, by decide,
    ⟨[], [], by decide⟩⟩

/-! ## Claim C8 — custom targets reach the decision logic trimmed and
non-empty -/

/-- A prefix of a `dropWhile` result is itself `dropWhile`-stable. -/
theorem dropWhile_eq_self_of_prefix (p : Char → Bool) (cs B : List Char)
    (hpre : B <+: cs.dropWhile p) : B.dropWhile p = B := by
  cases B with
  | nil => simp
  | cons b B' =>
    obtain ⟨t, ht⟩ := hpre
    have hlen : 0 < (cs.dropWhile p).length := by
      rw [← ht]; simp
    have hb := List.dropWhile_get_zero_not p cs hlen
    have hb' : (cs.dropWhile p).get ⟨0, hlen⟩ = b := by
      have h0 := congrArg (fun l => l.get? 0) ht
      simp at h0
      rw [List.getElem?_eq_getElem hlen] at h0
      have hb0 : b = (cs.dropWhile p)[0] := Option.some.inj h0
      simpa [List.get_eq_getElem] using hb0.symm
    rw [hb'] at hb
    simp [List.dropWhile_cons, hb]

/-- Trimming is idempotent. -/
theorem charTrim_idem (cs : List Char) : charTrim (charTrim cs) = charTrim cs := by
  have hrevB : (charTrim cs).reverse = (cs.dropWhile jsWS).reverse.dropWhile jsWS := by
    simp [charTrim]
  have step1 : (charTrim cs).dropWhile jsWS = charTrim cs := by
    refine dropWhile_eq_self_of_prefix jsWS cs (charTrim cs) ?_
    rw [← List.reverse_suffix, hrevB]
    exact List.dropWhile_suffix jsWS
  have step2 : (charTrim cs).reverse.dropWhile jsWS = (charTrim cs).reverse := by
    rw [hrevB]
    exact dropWhile_eq_self_of_prefix jsWS (cs.dropWhile jsWS).reverse _
      (List.prefix_refl _)
  show (((charTrim cs).dropWhile jsWS).reverse.dropWhile jsWS).reverse = charTrim cs
  rw [step1, step2, List.reverse_reverse]

/-- C8: every string in the request's `customTargets` is trim-stable and
non-empty — the decision logic never sees an untrimmed or empty target. -/
theorem claim_C8_targets_trimmed :
    ∀ (s t : String), t ∈ buildCustomTargets s → jsTrim t = t ∧ t ≠ "" := by
  intro s t ht
  unfold buildCustomTargets at ht
  obtain ⟨htmem, htne⟩ := List.mem_filter.mp ht
  refine ⟨?_, by simpa using htne⟩
  obtain ⟨u, _, hu⟩ := List.mem_map.mp htmem
  subst hu
  show jsTrim (jsTrim u) = jsTrim u
  unfold jsTrim
  rw [show (String.mk (charTrim u.toList)).toList = charTrim u.toList from rfl,
    charTrim_idem]

/-- Witness for `claim_C8_targets_trimmed`: the target `"credit_card"`
produced from a messy comma-separated input is trim-stable and non-empty. -/
theorem claim_C8_witness :
    jsTrim "credit_card" = "credit_card" ∧ "credit_card" ≠ "" :=
  claim_C8_targets_trimmed "  credit_card , ,email " "credit_card" (by decide)
